import Mathlib

/-!
Shallow embedding of the rule-matching and template-application engine of the
"Template by Note Name" Obsidian plugin (src/matcher.ts and the plugin class
in main.ts), together with theorems settling the specification claims.

JavaScript strings are modelled as Lean `String`s and string primitives are
modelled on the underlying character lists; the `moment().format` facility is
modelled as an oracle `fmt : String → String` mapping a format pattern to the
formatted current date or time; the vault is a partial map from paths to note
contents.
-/

namespace TemplateByNoteName

/-- A note file as the host application hands it to the plugin: full vault
path and basename (file name without directory and extension), the two TFile
fields the plugin reads. -/
structure TFile where
  path : String
  basename : String
  deriving Repr, DecidableEq

/-- A Matcher is a single user-provided templating rule: a match string, a
template path, and a match method string ("prefix", "suffix" or "contains").
From the Matcher interface in main.ts / the Matcher class fields in
src/matcher.ts. -/
structure Matcher where
  matchString : String
  templatePath : String
  matchMethod : String
  deriving Repr, DecidableEq

/-- The plugin settings record (TemplateByNoteNameSettings in main.ts). -/
structure TemplateByNoteNameSettings where
  templateFolder : String
  dateFormat : String
  timeFormat : String
  templateOnRename : Bool
  caseSensitive : Bool
  matchers : List Matcher
  deriving Repr

/-- JavaScript String.prototype.trim, on the character sequence. -/
def jsTrim (s : String) : String :=
  String.mk (((s.data.dropWhile Char.isWhitespace).reverse.dropWhile
    Char.isWhitespace).reverse)

/-- JavaScript String.prototype.startsWith. -/
def jsStartsWith (s target : String) : Bool :=
  target.data.isPrefixOf s.data

/-- JavaScript String.prototype.endsWith. -/
def jsEndsWith (s target : String) : Bool :=
  target.data.isSuffixOf s.data

/-- Whether the needle occurs as a contiguous run somewhere in the haystack. -/
def listContainsRun (needle : List Char) : List Char → Bool
  | [] => needle.isEmpty
  | c :: rest => needle.isPrefixOf (c :: rest) || listContainsRun needle rest

/-- JavaScript String.prototype.includes. -/
def jsIncludes (s target : String) : Bool :=
  listContainsRun target.data s.data

/-- JavaScript String.prototype.toLowerCase (character-wise lower casing). -/
def jsToLowerCase (s : String) : String :=
  String.mk (s.data.map Char.toLower)

/-- Matcher.matches from src/matcher.ts: a match string that trims to the
empty string never matches; otherwise dispatch on the match method (a switch
over "prefix", "suffix", "contains", written here as the equivalent ordered
equality tests), defaulting to false. -/
def Matcher.matches (m : Matcher) (fileName : String) : Bool :=
  if jsTrim m.matchString = "" then
    false
  else if m.matchMethod = "prefix" then
    jsStartsWith fileName m.matchString
  else if m.matchMethod = "suffix" then
    jsEndsWith fileName m.matchString
  else if m.matchMethod = "contains" then
    jsIncludes fileName m.matchString
  else
    false

/-- fileMatchesRule from main.ts: like Matcher.matches but normalizing the
basename and the match string to lower case when the caseSensitive setting is
off. -/
def fileMatchesRule (s : TemplateByNoteNameSettings) (basename : String)
    (matcher : Matcher) : Bool :=
  if jsTrim matcher.matchString = "" then
    false
  else
    let basename := if s.caseSensitive then basename else jsToLowerCase basename
    let matchString :=
      if s.caseSensitive then matcher.matchString
      else jsToLowerCase matcher.matchString
    if matcher.matchMethod = "prefix" then
      jsStartsWith basename matchString
    else if matcher.matchMethod = "suffix" then
      jsEndsWith basename matchString
    else if matcher.matchMethod = "contains" then
      jsIncludes basename matchString
    else
      false

/-- findMatcherForFile from main.ts: the first matcher in settings order whose
rule matches the file's basename. -/
def findMatcherForFile (s : TemplateByNoteNameSettings) (file : TFile) :
    Option Matcher :=
  s.matchers.find? (fun m => fileMatchesRule s file.basename m)

/-- The line terminators that the dot of a JavaScript regular expression does
not match. -/
def isLineTerminator (c : Char) : Bool :=
  c = '\n' || c = '\r' || c = '\u2028' || c = '\u2029'

/-- Lazy scan of the token body for the regular expression /\x7b\x7b(.+?)\x7d\x7d/:
having already consumed the (reversed) body `acc`, first try to close the
token with two closing braces at the current position, otherwise consume one
more non-line-terminator character. Returns the body and the characters after
the closing braces. -/
def scanTokenContent : List Char → List Char → Option (List Char × List Char)
  | _, [] => none
  | acc, c :: rest =>
    if c = '\x7d' ∧ rest.head? = some '\x7d' then some (acc.reverse, rest.tail)
    else if isLineTerminator c then none
    else scanTokenContent (c :: acc) rest

/-- Try to match the body of /\x7b\x7b(.+?)\x7d\x7d/ right after an opening
"\x7b\x7b": the lazy .+? must consume at least one character before the first
attempt to close the token. -/
def matchTokenAt : List Char → Option (List Char × List Char)
  | [] => none
  | c :: rest => if isLineTerminator c then none else scanTokenContent [c] rest

/-- JavaScript String.prototype.replace(/\x7b\x7b(.+?)\x7d\x7d/g, cb) on a
character list: at each position try to match the token pattern (leftmost,
lazy); on a match emit the callback's value applied to the token body and
resume after the match, otherwise emit the character and move on. The fuel
argument bounds the number of positions considered; `jsReplaceCurly` passes
the input length, which is always sufficient. -/
def replaceTokensFuel (f : String → String) : Nat → List Char → List Char
  | _, [] => []
  | 0, l => l
  | n + 1, c :: rest =>
    if c = '\x7b' ∧ rest.head? = some '\x7b' then
      match matchTokenAt rest.tail with
      | some (content, rest2) =>
        (f (String.mk content)).data ++ replaceTokensFuel f n rest2
      | none => c :: replaceTokensFuel f n rest
    else
      c :: replaceTokensFuel f n rest

/-- content.replace(/\x7b\x7b(.+?)\x7d\x7d/g, cb) where the callback receives
the bracketed body and returns the replacement for the whole match. -/
def jsReplaceCurly (f : String → String) (s : String) : String :=
  String.mk (replaceTokensFuel f s.data.length s.data)

/-- The replacement callback of replaceDates in main.ts. The regular
expression callback returns moment().format(settings.dateFormat) for "date",
moment().format(format) for "date:format" (bracketContent.replace("date:", "")
removes the first occurrence of "date:", which under the startsWith guard is
the five-character leading "date:"), and the whole match verbatim otherwise.
The moment oracle `fmt` maps a format pattern to the formatted current
instant. -/
def dateCallback (fmt : String → String) (dateFormat : String)
    (bracketContent : String) : String :=
  if bracketContent = "date" then fmt dateFormat
  else if jsStartsWith bracketContent "date:" then fmt (bracketContent.drop 5)
  else "\x7b\x7b" ++ bracketContent ++ "\x7d\x7d"

/-- The replacement callback of replaceTimes in main.ts, analogous to
`dateCallback`. -/
def timeCallback (fmt : String → String) (timeFormat : String)
    (bracketContent : String) : String :=
  if bracketContent = "time" then fmt timeFormat
  else if jsStartsWith bracketContent "time:" then fmt (bracketContent.drop 5)
  else "\x7b\x7b" ++ bracketContent ++ "\x7d\x7d"

/-- replaceDates from main.ts. -/
def replaceDates (fmt : String → String) (s : TemplateByNoteNameSettings)
    (content : String) : String :=
  jsReplaceCurly (dateCallback fmt s.dateFormat) content

/-- replaceTimes from main.ts. -/
def replaceTimes (fmt : String → String) (s : TemplateByNoteNameSettings)
    (content : String) : String :=
  jsReplaceCurly (timeCallback fmt s.timeFormat) content

/-- evaluateTemplate from main.ts: the date pass followed by the time pass. -/
def evaluateTemplate (fmt : String → String) (s : TemplateByNoteNameSettings)
    (template : String) : String :=
  replaceTimes fmt s (replaceDates fmt s template)

/-- The vault storage collaborator: note content by full path, none when no
file exists at the path. -/
abbrev Vault := String → Option String

/-- vault.read on an existing file (event handlers only read files the host
just reported as existing). -/
def readVault (vault : Vault) (path : String) : String :=
  (vault path).getD ""

/-- vault.modify: overwrite the content of the note at the path. -/
def modifyVault (vault : Vault) (path content : String) : Vault :=
  fun p => if p = path then some content else vault p

/-- getTemplateContent from main.ts: resolve the template path in the vault;
when missing, log an error and yield the empty string; otherwise evaluate the
template content. Returns the content together with the log messages
emitted. -/
def getTemplateContent (fmt : String → String) (s : TemplateByNoteNameSettings)
    (vault : Vault) (templatePath : String) : String × List String :=
  match vault templatePath with
  | none => ("", ["Template " ++ templatePath ++ " not found"])
  | some templateContent => (evaluateTemplate fmt s templateContent, [])

/-- templateNote from main.ts: write renderedTemplate ++ blank line ++ the
note's current content into the note. -/
def templateNote (fmt : String → String) (s : TemplateByNoteNameSettings)
    (vault : Vault) (file : TFile) (templatePath : String) : Vault :=
  let templateContent := (getTemplateContent fmt s vault templatePath).1
  let fileContent := readVault vault file.path
  modifyVault vault file.path (templateContent ++ "\n\n" ++ fileContent)

/-- templateOnCreate from main.ts: template the note when a rule matches its
basename (the truthiness test on templatePath also skips an empty template
path). -/
def templateOnCreate (fmt : String → String) (s : TemplateByNoteNameSettings)
    (vault : Vault) (file : TFile) : Vault :=
  match findMatcherForFile s file with
  | some m =>
    if m.templatePath = "" then vault else templateNote fmt s vault file m.templatePath
  | none => vault

/-- Helper for oldName.split("/"): split the character list at every slash,
accumulating the current (reversed) segment. -/
def splitSlashAux : List Char → List Char → List String
  | acc, [] => [String.mk acc.reverse]
  | acc, c :: rest =>
    if c = '/' then String.mk acc.reverse :: splitSlashAux [] rest
    else splitSlashAux (c :: acc) rest

/-- JavaScript oldName.split("/"); always yields at least one element. -/
def jsSplitSlash (s : String) : List String :=
  splitSlashAux [] s.data

/-- JavaScript s.slice(0, -3): all but the final three characters. -/
def jsSliceDropLast3 (s : String) : String :=
  String.mk (s.data.take (s.data.length - 3))

/-- The old basename computed by templateOnRename in main.ts:
oldName.split("/").pop()?.slice(0, -3) ?? "" — the last slash-separated
component with its final three characters removed; the none branch mirrors
the ?? "" fallback (split never yields an empty array, so it is inert). -/
def oldBasenameOf (oldName : String) : String :=
  match (jsSplitSlash oldName).getLast? with
  | some lastComponent => jsSliceDropLast3 lastComponent
  | none => ""

/-- templateOnRename from main.ts: when a rule matches the new basename and
templating on rename is enabled, prepend the rendered template unless the old
basename also matches the same rule. -/
def templateOnRename (fmt : String → String) (s : TemplateByNoteNameSettings)
    (vault : Vault) (file : TFile) (oldName : String) : Vault :=
  match findMatcherForFile s file with
  | some matcher =>
    if !s.templateOnRename then vault
    else if fileMatchesRule s (oldBasenameOf oldName) matcher then vault
    else templateNote fmt s vault file matcher.templatePath
  | none => vault

/-- Drop everything up to and including the first dot of a reversed name,
provided characters remain after that dot; none when there is no dot or the
dot is the name's first character. Scanning the reversed name finds the last
dot of the name, so a some result is the reversed name-without-extension. -/
def dropThroughDot : List Char → Option (List Char)
  | [] => none
  | c :: rest =>
    if c = '.' then (if rest = [] then none else some rest)
    else dropThroughDot rest

/-- Specification-side definition, following the spec's words: the documented
old basename is the old path with directory components and the file extension
stripped — the last slash-separated component without the suffix that starts
at its last dot (a leading dot begins a hidden file's name, not an
extension). -/
def specBasename (path : String) : String :=
  let nm := (jsSplitSlash path).getLastD ""
  match dropThroughDot nm.data.reverse with
  | some base => String.mk base.reverse
  | none => nm

/-- Whether the path ends in a three-character extension such as ".md": its
final slash-separated component ends in a dot followed by exactly two non-dot
characters, with that dot not the component's first character. -/
def endsInThreeCharExt (path : String) : Bool :=
  match ((jsSplitSlash path).getLastD "").data.reverse with
  | c2 :: c1 :: c0 :: rest => c0 == '.' && c1 != '.' && c2 != '.' && !rest.isEmpty
  | _ => false

/-! Concrete scenario data used by the witnesses and counterexamples. -/

/-- Moment oracle for 2024-12-19 14:30: the configured date and time patterns
formatted at that instant. -/
def momentDec19 : String → String := fun pattern =>
  if pattern = "YYYY-MM-DD" then "2024-12-19"
  else if pattern = "HH:mm" then "14:30"
  else "?"

/-- The spec scenarios' rule: match string "TODO", method "prefix", template
"Templates/TODO.md". -/
def todoRule : Matcher :=
  { matchString := "TODO", templatePath := "Templates/TODO.md", matchMethod := "prefix" }

/-- Settings for the spec scenarios: dateFormat "YYYY-MM-DD", timeFormat
"HH:mm", templating on rename enabled, case-sensitive matching, the single
TODO rule. -/
def todoSettings : TemplateByNoteNameSettings :=
  { templateFolder := "Templates", dateFormat := "YYYY-MM-DD", timeFormat := "HH:mm",
    templateOnRename := true, caseSensitive := true, matchers := [todoRule] }

/-- The newly created (renamed-to) note in the spec scenarios. -/
def tgFile : TFile :=
  { path := "TODO-groceries.md", basename := "TODO-groceries" }

/-- Vault for the create scenario: the template note and the freshly created
empty note. -/
def vaultCreate : Vault := fun p =>
  if p = "Templates/TODO.md" then some "- [ ] \x7b\x7bdate\x7d\x7d"
  else if p = "TODO-groceries.md" then some ""
  else none

/-- Vault for the rename scenarios: the template note and a note carrying
pre-existing content. -/
def vaultRename : Vault := fun p =>
  if p = "Templates/TODO.md" then some "- [ ] \x7b\x7bdate\x7d\x7d"
  else if p = "TODO-groceries.md" then some "milk\neggs"
  else if p = "TODO-2.md" then some "existing"
  else none

/-- A vault containing no files at all. -/
def emptyVault : Vault := fun _ => none

/-- Resolver tie-break scenario: rule A (method "prefix", match string
"Meeting"). -/
def meetingRuleA : Matcher :=
  { matchString := "Meeting", templatePath := "Templates/A.md", matchMethod := "prefix" }

/-- Resolver tie-break scenario: rule B (method "contains", match string
"eeting"). -/
def meetingRuleB : Matcher :=
  { matchString := "eeting", templatePath := "Templates/B.md", matchMethod := "contains" }

/-- Settings listing rule A before rule B. -/
def meetingSettings : TemplateByNoteNameSettings :=
  { templateFolder := "Templates", dateFormat := "YYYY-MM-DD", timeFormat := "HH:mm",
    templateOnRename := true, caseSensitive := true,
    matchers := [meetingRuleA, meetingRuleB] }

/-- The note resolved in the tie-break scenario. -/
def meetingFile : TFile :=
  { path := "MeetingNotes.md", basename := "MeetingNotes" }

/-- Settings with case-insensitive matching, for the case-folding scenarios. -/
def insensitiveSettings : TemplateByNoteNameSettings :=
  { templateFolder := "Templates", dateFormat := "YYYY-MM-DD", timeFormat := "HH:mm",
    templateOnRename := false, caseSensitive := false, matchers := [] }

/-- The lower-case TODO rule of the case-insensitivity scenario. -/
def lowTodoRule : Matcher :=
  { matchString := "todo", templatePath := "Templates/TODO.md", matchMethod := "prefix" }

/-! Theorems. -/

/-- C7: a rule whose match string trims to the empty string matches nothing:
for every basename and every match method, Matcher.matches is false, and the
plugin's fileMatchesRule is false under every settings value — in particular
under both case-sensitivity settings. -/
theorem emptyMatchStringNeverMatches (m : Matcher) (basename : String)
    (h : jsTrim m.matchString = "") :
    m.matches basename = false ∧
    ∀ s : TemplateByNoteNameSettings, fileMatchesRule s basename m = false := by
  refine ⟨?_, fun s => ?_⟩ <;> simp [Matcher.matches, fileMatchesRule, h]

/-- Witness for C7 at a whitespace-only match string. -/
theorem emptyMatchStringNeverMatchesWitness :
    Matcher.matches
      { matchString := " ", templatePath := "Templates/T.md", matchMethod := "contains" }
      "anything" = false :=
  (emptyMatchStringNeverMatches _ "anything" (by decide)).1

/-- C8: for a rule with method "prefix" whose match string does not trim to
empty, fileMatchesRule holds exactly when the basename starts with the match
string after case normalization: both sides are lowercased when caseSensitive
is off, and compared as-is otherwise. -/
theorem startsWithRuleCharacterization (s : TemplateByNoteNameSettings)
    (m : Matcher) (b : String) (hm : m.matchMethod = "prefix")
    (hne : jsTrim m.matchString ≠ "") :
    (fileMatchesRule s b m = true ↔
      (if s.caseSensitive then m.matchString.data <+: b.data
       else (jsToLowerCase m.matchString).data <+: (jsToLowerCase b).data)) := by
  by_cases hc : s.caseSensitive <;>
    simp [fileMatchesRule, hm, hne, hc, jsStartsWith, List.isPrefixOf_iff_prefix]

/-- Witness for C8: case-insensitive match string "todo" accepts basename
"TODO-x". -/
theorem startsWithRuleCharacterizationWitness :
    fileMatchesRule insensitiveSettings "TODO-x" lowTodoRule = true :=
  (startsWithRuleCharacterization insensitiveSettings lowTodoRule "TODO-x"
    (by decide) (by decide)).2 (by decide)

/-- C9: a rule whose match method is none of "prefix", "suffix" and
"contains" matches no basename: both total match functions take the fail-safe
default branch and return false, for every basename and settings value. -/
theorem unrecognizedMethodNeverMatches (m : Matcher) (b : String)
    (h1 : m.matchMethod ≠ "prefix") (h2 : m.matchMethod ≠ "suffix")
    (h3 : m.matchMethod ≠ "contains") :
    m.matches b = false ∧
    ∀ s : TemplateByNoteNameSettings, fileMatchesRule s b m = false := by
  refine ⟨?_, fun s => ?_⟩ <;> simp [Matcher.matches, fileMatchesRule, h1, h2, h3]

/-- Witness for C9 at the unrecognized method "regex". -/
theorem unrecognizedMethodNeverMatchesWitness :
    Matcher.matches
      { matchString := "TODO", templatePath := "Templates/T.md", matchMethod := "regex" }
      "TODO-note" = false :=
  (unrecognizedMethodNeverMatches _ "TODO-note" (by decide) (by decide) (by decide)).1

/-- List.find? returns the element at the first index satisfying the
predicate. -/
theorem findFirstIndexed {α : Type} (p : α → Bool) :
    ∀ (l : List α) (i : Nat) (hi : i < l.length),
      p (l.get ⟨i, hi⟩) = true →
      (∀ j : Nat, ∀ hj : j < l.length, j < i → p (l.get ⟨j, hj⟩) = false) →
      l.find? p = some (l.get ⟨i, hi⟩) := by
  intro l
  induction l with
  | nil => intro i hi _ _; exact absurd hi (by simp)
  | cons a t ih =>
    intro i hi hp hmin
    cases i with
    | zero => simpa using List.find?_cons_of_pos (l := t) (by simpa using hp)
    | succ n =>
      have ha : p a = false := hmin 0 (by simp) (Nat.succ_pos n)
      rw [List.find?_cons_of_neg _ (by simp [ha])]
      have hrec := ih n (by simpa using hi) (by simpa using hp) ?_
      · simpa using hrec
      · intro j hj hji
        have := hmin (j + 1) (by simpa using hj) (by omega)
        simpa using this

/-- C6: the resolver scans the matchers in order and returns the first whose
rule matches the basename; it returns none for the empty rule list and when
no rule matches; in particular the result is deterministically the
first-listed matching rule. -/
theorem resolverFirstMatchWins (s : TemplateByNoteNameSettings) (file : TFile) :
    (s.matchers = [] → findMatcherForFile s file = none) ∧
    ((∀ m ∈ s.matchers, fileMatchesRule s file.basename m = false) →
      findMatcherForFile s file = none) ∧
    (∀ i : Nat, ∀ hi : i < s.matchers.length,
      fileMatchesRule s file.basename (s.matchers.get ⟨i, hi⟩) = true →
      (∀ j : Nat, ∀ hj : j < s.matchers.length, j < i →
        fileMatchesRule s file.basename (s.matchers.get ⟨j, hj⟩) = false) →
      findMatcherForFile s file = some (s.matchers.get ⟨i, hi⟩)) := by
  refine ⟨?_, ?_, ?_⟩
  · intro h; simp [findMatcherForFile, h]
  · intro h
    unfold findMatcherForFile
    rw [List.find?_eq_none]
    intro x hx
    simp [h x hx]
  · intro i hi hp hmin
    exact findFirstIndexed _ s.matchers i hi hp hmin

/-- Witness for C6: with rule A (match "Meeting" by method "prefix") listed
before rule B (match "eeting" by method "contains"), basename "MeetingNotes"
resolves to A. -/
theorem resolverFirstMatchWinsWitness :
    findMatcherForFile meetingSettings meetingFile = some meetingRuleA :=
  (resolverFirstMatchWins meetingSettings meetingFile).2.2 0 (by decide) (by decide)
    (fun j _ hji => absurd hji (Nat.not_lt_zero j))

/-- C2: with templating on rename enabled, when the resolver's rule for the
new basename also matches the old basename derived from the old path (under
the same case-sensitivity setting), the rename handler performs no write: the
vault — hence every note's content — is unchanged. -/
theorem renameIdempotenceGuard (fmt : String → String)
    (s : TemplateByNoteNameSettings) (vault : Vault) (file : TFile)
    (oldName : String) (m : Matcher)
    (hren : s.templateOnRename = true)
    (hfind : findMatcherForFile s file = some m)
    (hold : fileMatchesRule s (oldBasenameOf oldName) m = true) :
    templateOnRename fmt s vault file oldName = vault := by
  simp only [templateOnRename, hfind]
  simp [hren, hold]

/-- Witness for C2: renaming "TODO-1.md" to "TODO-2.md" under the TODO rule
leaves the vault unchanged. -/
theorem renameIdempotenceGuardWitness :
    templateOnRename momentDec19 todoSettings vaultRename
      { path := "TODO-2.md", basename := "TODO-2" } "TODO-1.md" = vaultRename :=
  renameIdempotenceGuard momentDec19 todoSettings vaultRename _ "TODO-1.md" todoRule
    (by decide) (by decide) (by decide)

/-- C3: with templating on rename enabled, when the resolver finds a rule for
the new basename and that rule does not match the derived old basename, the
rename handler sets the note's content to rendered template ++ blank line ++
the note's prior content, preserving the pre-existing content. -/
theorem renamePrependsTemplate (fmt : String → String)
    (s : TemplateByNoteNameSettings) (vault : Vault) (file : TFile)
    (oldName : String) (m : Matcher)
    (hren : s.templateOnRename = true)
    (hfind : findMatcherForFile s file = some m)
    (hold : fileMatchesRule s (oldBasenameOf oldName) m = false) :
    readVault (templateOnRename fmt s vault file oldName) file.path =
      (getTemplateContent fmt s vault m.templatePath).1 ++ "\n\n" ++
        readVault vault file.path := by
  simp only [templateOnRename, hfind]
  simp [hren, hold, templateNote, readVault, modifyVault]

/-- Witness for C3: the spec's rename scenario yields
"- [ ] 2024-12-19\n\nmilk\neggs". -/
theorem renamePrependsTemplateWitness :
    readVault (templateOnRename momentDec19 todoSettings vaultRename tgFile
      "Groceries.md") tgFile.path = "- [ ] 2024-12-19\n\nmilk\neggs" := by
  rw [renamePrependsTemplate momentDec19 todoSettings vaultRename tgFile
    "Groceries.md" todoRule (by decide) (by decide) (by decide)]
  decide

/-- C1 amended: on create the handler does not write exactly the rendered
template; it writes rendered template ++ blank line ++ the note's prior
content (templateNote), so a freshly created empty note ends with a trailing
blank-line separator. -/
theorem createWritesTemplateAndSeparator (fmt : String → String)
    (s : TemplateByNoteNameSettings) (vault : Vault) (file : TFile) (m : Matcher)
    (hfind : findMatcherForFile s file = some m)
    (hpath : m.templatePath ≠ "") :
    readVault (templateOnCreate fmt s vault file) file.path =
      (getTemplateContent fmt s vault m.templatePath).1 ++ "\n\n" ++
        readVault vault file.path := by
  simp only [templateOnCreate, hfind]
  simp [hpath, templateNote, readVault, modifyVault]

/-- Witness for C1 (amended): the create scenario produces the rendered
template followed by the blank-line separator. -/
theorem createWritesTemplateAndSeparatorWitness :
    readVault (templateOnCreate momentDec19 todoSettings vaultCreate tgFile)
      tgFile.path = "- [ ] 2024-12-19\n\n" := by
  rw [createWritesTemplateAndSeparator momentDec19 todoSettings vaultCreate tgFile
    todoRule (by decide) (by decide)]
  decide

/-- C1 counterexample: in the spec's create scenario the resulting content is
"- [ ] 2024-12-19\n\n" — the rendered template plus a blank-line separator —
not exactly the rendered template "- [ ] 2024-12-19". -/
theorem createScenarioAppendsSeparator :
    readVault (templateOnCreate momentDec19 todoSettings vaultCreate tgFile)
        "TODO-groceries.md" = "- [ ] 2024-12-19\n\n" ∧
    readVault (templateOnCreate momentDec19 todoSettings vaultCreate tgFile)
        "TODO-groceries.md" ≠ "- [ ] 2024-12-19" := by
  decide

/-- C5: a template path that resolves to no note in the vault yields empty
rendered content, reports the condition through the log only, and templating
the note proceeds rather than aborting: templateNote still completes its
write, applying the empty template content. -/
theorem missingTemplateYieldsEmpty (fmt : String → String)
    (s : TemplateByNoteNameSettings) (vault : Vault) (templatePath : String)
    (h : vault templatePath = none) :
    (getTemplateContent fmt s vault templatePath).1 = "" ∧
    (getTemplateContent fmt s vault templatePath).2 =
      ["Template " ++ templatePath ++ " not found"] ∧
    ∀ file : TFile,
      readVault (templateNote fmt s vault file templatePath) file.path =
        "" ++ "\n\n" ++ readVault vault file.path := by
  refine ⟨?_, ?_, fun file => ?_⟩ <;>
    simp [getTemplateContent, h, templateNote, readVault, modifyVault]

/-- Witness for C5 at a vault without the referenced template. -/
theorem missingTemplateYieldsEmptyWitness :
    (getTemplateContent momentDec19 todoSettings emptyVault
      "Templates/Missing.md").1 = "" :=
  (missingTemplateYieldsEmpty momentDec19 todoSettings emptyVault
    "Templates/Missing.md" rfl).1

/-- Scanning a token body made of closeable characters up to an explicit
closing brace pair collects exactly that body. -/
theorem scanTokenContentAppend : ∀ (l acc r : List Char),
    (∀ c ∈ l, c ≠ '\x7d' ∧ isLineTerminator c = false) →
    scanTokenContent acc (l ++ '\x7d' :: '\x7d' :: r) = some (acc.reverse ++ l, r) := by
  intro l
  induction l with
  | nil => intro acc r _; simp [scanTokenContent]
  | cons c cs ih =>
    intro acc r h
    have hc := h c (by simp)
    simp only [List.cons_append, scanTokenContent]
    rw [if_neg (by simp [hc.1]), if_neg (by simp [hc.2])]
    have hrec := ih (c :: acc) r (fun x hx => h x (by simp [hx]))
    simpa using hrec

/-- A nonempty brace-free, line-break-free body followed by a closing brace
pair is matched exactly. -/
theorem matchTokenAtAppend (l r : List Char) (hne : l ≠ [])
    (hok : ∀ c ∈ l, c ≠ '\x7d' ∧ isLineTerminator c = false) :
    matchTokenAt (l ++ '\x7d' :: '\x7d' :: r) = some (l, r) := by
  cases l with
  | nil => exact absurd rfl hne
  | cons c cs =>
    have hc := hok c (by simp)
    simp only [List.cons_append, matchTokenAt]
    rw [if_neg (by simp [hc.2])]
    rw [scanTokenContentAppend cs [c] r (fun x hx => hok x (by simp [hx]))]
    simp

/-- Replacing over a single complete token applies the callback to its body
and consumes the whole input. -/
theorem replaceTokensFuelToken (f : String → String) (n : Nat) (l : List Char)
    (hne : l ≠ []) (hok : ∀ c ∈ l, c ≠ '\x7d' ∧ isLineTerminator c = false) :
    replaceTokensFuel f (n + 1) ('\x7b' :: '\x7b' :: (l ++ ['\x7d', '\x7d'])) =
      (f (String.mk l)).data := by
  have hmt : matchTokenAt (l ++ ['\x7d', '\x7d']) = some (l, []) :=
    matchTokenAtAppend l [] hne hok
  simp [replaceTokensFuel, hmt]

/-- The replace pass on a string that is exactly one well-formed token
applies the callback to the body. -/
theorem jsReplaceCurlyToken (f : String → String) (t : String)
    (hne : t.data ≠ [])
    (hok : ∀ c ∈ t.data, c ≠ '\x7d' ∧ isLineTerminator c = false) :
    jsReplaceCurly f ("\x7b\x7b" ++ t ++ "\x7d\x7d") = f t := by
  have hdata : ("\x7b\x7b" ++ t ++ "\x7d\x7d").data =
      '\x7b' :: '\x7b' :: (t.data ++ ['\x7d', '\x7d']) := by
    simp [String.data_append]
  simp only [jsReplaceCurly, hdata]
  have hlen : ('\x7b' :: '\x7b' :: (t.data ++ ['\x7d', '\x7d'])).length =
      (t.data.length + 3) + 1 := by simp
  rw [hlen, replaceTokensFuelToken f _ t.data hne hok]

/-- The date callback passes any body other than the date tokens through
verbatim. -/
theorem dateCallbackOther (fmt : String → String) (df t : String)
    (h1 : t ≠ "date") (h2 : jsStartsWith t "date:" = false) :
    dateCallback fmt df t = "\x7b\x7b" ++ t ++ "\x7d\x7d" := by
  simp [dateCallback, h1, h2]

/-- The time callback passes any body other than the time tokens through
verbatim. -/
theorem timeCallbackOther (fmt : String → String) (tf t : String)
    (h1 : t ≠ "time") (h2 : jsStartsWith t "time:" = false) :
    timeCallback fmt tf t = "\x7b\x7b" ++ t ++ "\x7d\x7d" := by
  simp [timeCallback, h1, h2]

/-- C4: template rendering substitutes date and time tokens via two
independent passes — evaluateTemplate is exactly the date pass followed by
the time pass; on the two-token content the date pass substitutes the date
token and leaves the time token intact, and conversely; one render call
substitutes both tokens; and any single well-formed token other than the
date/time tokens passes through rendering verbatim. -/
theorem templateTokenSubstitution :
    (∀ (fmt : String → String) (s : TemplateByNoteNameSettings) (t : String),
      evaluateTemplate fmt s t = replaceTimes fmt s (replaceDates fmt s t)) ∧
    (∀ (fmt : String → String) (s : TemplateByNoteNameSettings),
      replaceDates fmt s "\x7b\x7bdate\x7d\x7d at \x7b\x7btime\x7d\x7d" =
        fmt s.dateFormat ++ " at \x7b\x7btime\x7d\x7d") ∧
    (∀ (fmt : String → String) (s : TemplateByNoteNameSettings),
      replaceTimes fmt s "\x7b\x7bdate\x7d\x7d at \x7b\x7btime\x7d\x7d" =
        "\x7b\x7bdate\x7d\x7d at " ++ fmt s.timeFormat) ∧
    (evaluateTemplate momentDec19 todoSettings
        "\x7b\x7bdate\x7d\x7d at \x7b\x7btime\x7d\x7d" = "2024-12-19 at 14:30") ∧
    (∀ (t : String) (fmt : String → String) (s : TemplateByNoteNameSettings),
      t.data ≠ [] →
      (∀ c ∈ t.data, c ≠ '\x7d' ∧ isLineTerminator c = false) →
      t ≠ "date" → jsStartsWith t "date:" = false →
      t ≠ "time" → jsStartsWith t "time:" = false →
      evaluateTemplate fmt s ("\x7b\x7b" ++ t ++ "\x7d\x7d") =
        "\x7b\x7b" ++ t ++ "\x7d\x7d") := by
  refine ⟨fun fmt s t => rfl, fun fmt s => rfl, fun fmt s => ?_, by decide, ?_⟩
  · show String.mk ("\x7b\x7bdate\x7d\x7d at ".data ++
        ((fmt s.timeFormat).data ++ ([] : List Char))) =
      "\x7b\x7bdate\x7d\x7d at " ++ fmt s.timeFormat
    rw [List.append_nil]
    rfl
  intro t fmt s hne hok h1 h2 h3 h4
  have hd : replaceDates fmt s ("\x7b\x7b" ++ t ++ "\x7d\x7d") =
      "\x7b\x7b" ++ t ++ "\x7d\x7d" := by
    simp only [replaceDates]
    rw [jsReplaceCurlyToken _ t hne hok, dateCallbackOther fmt s.dateFormat t h1 h2]
  have ht : replaceTimes fmt s ("\x7b\x7b" ++ t ++ "\x7d\x7d") =
      "\x7b\x7b" ++ t ++ "\x7d\x7d" := by
    simp only [replaceTimes]
    rw [jsReplaceCurlyToken _ t hne hok, timeCallbackOther fmt s.timeFormat t h3 h4]
  show replaceTimes fmt s (replaceDates fmt s ("\x7b\x7b" ++ t ++ "\x7d\x7d")) = _
  rw [hd, ht]

/-- Witness for C4: the unrecognized token body "project" passes through a
render call verbatim. -/
theorem templateTokenSubstitutionWitness :
    evaluateTemplate momentDec19 todoSettings "\x7b\x7bproject\x7d\x7d" =
      "\x7b\x7bproject\x7d\x7d" :=
  templateTokenSubstitution.2.2.2.2 "project" momentDec19 todoSettings
    (by decide) (by decide) (by decide) (by decide) (by decide) (by decide)

/-- Splitting on slashes always yields at least one component. -/
theorem splitSlashAuxNeNil : ∀ (acc l : List Char), splitSlashAux acc l ≠ [] := by
  intro acc l
  induction l generalizing acc with
  | nil => simp [splitSlashAux]
  | cons c rest ih =>
    simp only [splitSlashAux]
    split
    · simp
    · exact ih (c :: acc)

/-- The old basename the rename guard tests is the last slash-separated
component of the old path with its final three characters removed. -/
theorem oldBasenameEq (path : String) :
    oldBasenameOf path = jsSliceDropLast3 ((jsSplitSlash path).getLastD "") := by
  unfold oldBasenameOf
  cases e : (jsSplitSlash path).getLast? with
  | none =>
    exact absurd (List.getLast?_eq_none_iff.mp e) (splitSlashAuxNeNil [] path.data)
  | some v =>
    rw [List.getLastD_eq_getLast?, e]
    rfl

/-- A successful dropThroughDot splits the reversed name at its first dot,
with a nonempty remainder. -/
theorem dropThroughDotSome : ∀ (r base : List Char),
    dropThroughDot r = some base →
    ∃ e, r = e ++ '.' :: base ∧ (∀ c ∈ e, c ≠ '.') ∧ base ≠ [] := by
  intro r
  induction r with
  | nil => intro base h; simp [dropThroughDot] at h
  | cons c rest ih =>
    intro base h
    simp only [dropThroughDot] at h
    by_cases hc : c = '.'
    · rw [if_pos hc] at h
      by_cases hr : rest = []
      · rw [if_pos hr] at h; exact absurd h (by simp)
      · rw [if_neg hr] at h
        have hb : rest = base := by injection h
        subst hb
        exact ⟨[], by simp [hc], by simp, hr⟩
    · rw [if_neg hc] at h
      obtain ⟨e, he, hed, hb⟩ := ih base h
      refine ⟨c :: e, by simp [he], ?_, hb⟩
      intro x hx
      rcases List.mem_cons.mp hx with hx | hx
      · exact hx ▸ hc
      · exact hed x hx

/-- dropThroughDot skips a non-dot leading character. -/
theorem dropThroughDotCons (c : Char) (rest : List Char) (hc : c ≠ '.') :
    dropThroughDot (c :: rest) = dropThroughDot rest := by
  simp [dropThroughDot, hc]

/-- C10 amended: the old basename tested by the rename idempotence guard is
the substring of the old path after the last "/" with its final three
characters unconditionally removed (falling back to "" when absent); it
coincides with the documented basename (name without extension) whenever the
old path ends in a three-character extension such as ".md", and it can only
coincide with the documented basename when the path ends in such an extension
or the final path component is empty. -/
theorem renameOldBasenameDerivation (path : String) :
    (oldBasenameOf path = jsSliceDropLast3 ((jsSplitSlash path).getLastD "")) ∧
    (endsInThreeCharExt path = true → oldBasenameOf path = specBasename path) ∧
    (oldBasenameOf path = specBasename path →
      endsInThreeCharExt path = true ∨ (jsSplitSlash path).getLastD "" = "") := by
  refine ⟨oldBasenameEq path, ?_, ?_⟩
  · intro h3
    rw [oldBasenameEq path]
    unfold endsInThreeCharExt at h3
    cases hrev : ((jsSplitSlash path).getLastD "").data.reverse with
    | nil => rw [hrev] at h3; simp at h3
    | cons c2 r1 =>
      cases r1 with
      | nil => rw [hrev] at h3; simp at h3
      | cons c1 r2 =>
        cases r2 with
        | nil => rw [hrev] at h3; simp at h3
        | cons c0 rest =>
          rw [hrev] at h3
          simp only [Bool.and_eq_true, beq_iff_eq, bne_iff_ne, ne_eq,
            Bool.not_eq_true'] at h3
          obtain ⟨⟨⟨h0, h1⟩, h2⟩, hrest⟩ := h3
          subst h0
          have hrest2 : rest ≠ [] := by
            intro hx
            rw [hx] at hrest
            simp at hrest
          have hL : ((jsSplitSlash path).getLastD "").data =
              rest.reverse ++ '.' :: c1 :: c2 :: [] := by
            have h := congrArg List.reverse hrev
            simpa using h
          have hd : dropThroughDot ((jsSplitSlash path).getLastD "").data.reverse =
              some rest := by
            rw [hrev, dropThroughDotCons c2 _ h2, dropThroughDotCons c1 _ h1]
            simp only [dropThroughDot]
            simp [hrest2]
          have hspec : specBasename path = String.mk rest.reverse := by
            simp only [specBasename, hd]
          rw [hspec]
          unfold jsSliceDropLast3
          rw [hL]
          have hlen : (rest.reverse ++ '.' :: c1 :: c2 :: []).length - 3 =
              rest.reverse.length := by simp
          rw [hlen, List.take_left]
  · intro heq
    rw [oldBasenameEq path] at heq
    by_cases hnil : (jsSplitSlash path).getLastD "" = ""
    · exact Or.inr hnil
    left
    cases hdrop : dropThroughDot ((jsSplitSlash path).getLastD "").data.reverse with
    | none =>
      have hspec : specBasename path = (jsSplitSlash path).getLastD "" := by
        simp only [specBasename, hdrop]
      rw [hspec] at heq
      unfold jsSliceDropLast3 at heq
      have hdata : List.take (((jsSplitSlash path).getLastD "").data.length - 3)
          ((jsSplitSlash path).getLastD "").data =
          ((jsSplitSlash path).getLastD "").data := congrArg String.data heq
      have hlen := congrArg List.length hdata
      rw [List.length_take, Nat.min_eq_left (Nat.sub_le _ _)] at hlen
      have hzero : ((jsSplitSlash path).getLastD "").data = [] :=
        List.length_eq_zero.mp (by omega)
      exact absurd (String.ext (hzero.trans rfl)) hnil
    | some base =>
      have hspec : specBasename path = String.mk base.reverse := by
        simp only [specBasename, hdrop]
      rw [hspec] at heq
      obtain ⟨e, he, hed, hb⟩ := dropThroughDotSome _ base hdrop
      have hL : ((jsSplitSlash path).getLastD "").data =
          base.reverse ++ '.' :: e.reverse := by
        have h := congrArg List.reverse he
        simpa using h
      have hdata : List.take (((jsSplitSlash path).getLastD "").data.length - 3)
          ((jsSplitSlash path).getLastD "").data = base.reverse :=
        congrArg String.data heq
      have hlen := congrArg List.length hdata
      rw [List.length_take, Nat.min_eq_left (Nat.sub_le _ _), hL] at hlen
      simp only [List.length_append, List.length_cons, List.length_reverse] at hlen
      have hbpos : 0 < base.length := List.length_pos.mpr hb
      have he2 : e.length = 2 := by omega
      obtain ⟨a, b, hab⟩ := List.length_eq_two.mp he2
      subst hab
      have ha : a ≠ '.' := hed a (by simp)
      have hb2 : b ≠ '.' := hed b (by simp)
      unfold endsInThreeCharExt
      rw [he]
      simp only [List.cons_append, List.nil_append]
      cases base with
      | nil => exact absurd rfl hb
      | cons x xs => simp [ha, hb2]


/-- Witness for C10 at the ".md" path "Dir/Note.md", where the guard's string
is the documented basename "Note". -/
theorem renameOldBasenameDerivationWitness :
    oldBasenameOf "Dir/Note.md" = specBasename "Dir/Note.md" :=
  (renameOldBasenameDerivation "Dir/Note.md").2.1 (by decide)

/-- C10 counterexample: for the old path "Dir/" — whose final component is
empty and which does not end in a three-character extension — the guard tests
exactly the documented basename (both are the empty string), contradicting
the claim that this happens only for three-character extensions. -/
theorem renameOldBasenameCounterexample :
    oldBasenameOf "Dir/" = specBasename "Dir/" ∧
    endsInThreeCharExt "Dir/" = false ∧
    oldBasenameOf "Dir/Note.txt" ≠ specBasename "Dir/Note.txt" := by
  decide

end TemplateByNoteName
